import Mathlib

/-!
Shallow embedding of the note-store core of `src/notes_frontend/src/App.js`
(the `NotesProvider` state container of the simple notes manager).

Conventions of the embedding:
* JS strings are Lean `String` (a structure over `List Char`); the JS string
  primitives used by the source (`trim`, `toLowerCase`, `includes`,
  lexicographic comparison backing `localeCompare`) are embedded as structural
  functions over the character list so that they evaluate by `decide`.
* Timestamps (ISO strings from the clock, compared through date parsing in the
  source) are embedded as `Nat` values in chronological order; the current
  time is an explicit `now` parameter of each mutating operation.
* The random id suffix is an explicit `rand : String` parameter; the clock
  value feeding the id is the `now` parameter.
* React `useState` state is gathered in an explicit `StoreState` record and
  every operation is a pure function from state to state.
* A JS partial object (`data` in `createNote`, `updates` in `updateNote`) is a
  record of `Option` fields: `none` means the key is absent, so object spread
  over the note becomes `Option.getD` field by field.
-/

/-- A note record, with the exact fields produced by `createNote` in App.js:
`id`, `title`, `content`, `tags`, `createdAt`, `updatedAt`, `archived`. -/
structure Note where
  id : String
  title : String
  content : String
  tags : List String
  createdAt : Nat
  updatedAt : Nat
  archived : Bool
deriving Repr, DecidableEq

/-- The `data` argument of `createNote`: the optional `title`, `content` and
`tags` keys. -/
structure CreateData where
  title : Option String
  content : Option String
  tags : Option (List String)
deriving Repr, DecidableEq

/-- The `updates` argument of `updateNote`: a JS object spread over the note,
so any of the note's own keys may appear in it. -/
structure NotePatch where
  id : Option String
  title : Option String
  content : Option String
  tags : Option (List String)
  createdAt : Option Nat
  updatedAt : Option Nat
  archived : Option Bool
deriving Repr, DecidableEq

/-- The `NotesProvider` state: `notes`, `theme`, `query`, `sortBy`,
`selectedId` (all `useState` hooks of App.js). -/
@[ext]
structure StoreState where
  notes : List Note
  theme : String
  query : String
  sortBy : String
  selectedId : Option String
deriving Repr, DecidableEq

/-- JS lower-casing (`toLowerCase`), character by character. -/
def jsToLower (s : String) : String :=
  String.mk (s.data.map Char.toLower)

/-- Drop leading whitespace characters from a character list. -/
def dropWs : List Char → List Char
  | [] => []
  | c :: cs => if c.isWhitespace then dropWs cs else c :: cs

/-- JS trimming (`trim`): strip whitespace from both ends. -/
def jsTrim (s : String) : String :=
  String.mk ((dropWs (dropWs s.data.reverse).reverse))

/-- Does the first character list start with the second? -/
def startsWithL : List Char → List Char → Bool
  | _, [] => true
  | [], _ :: _ => false
  | c :: cs, d :: ds => decide (c = d) && startsWithL cs ds

/-- Does the first character list contain the second as a contiguous run? -/
def containsL : List Char → List Char → Bool
  | [], p => startsWithL [] p
  | c :: cs, p => startsWithL (c :: cs) p || containsL cs p

/-- JS substring test: `strIncludes s q` embeds `s.includes(q)`. -/
def strIncludes (s q : String) : Bool :=
  containsL s.data q.data

/-- Lexicographic comparison of character lists (by code point), the order
backing the embedding of `localeCompare`. -/
def charListLe : List Char → List Char → Bool
  | [], _ => true
  | _ :: _, [] => false
  | c :: cs, d :: ds => if c = d then charListLe cs ds else decide (c < d)

/-- Embeds `a.localeCompare(b) <= 0` as code-point lexicographic order. -/
def strLe (a b : String) : Bool :=
  charListLe a.data b.data

/-- Embeds `genId`: the decimal clock value, a dash, and the random suffix. -/
def genId (now : Nat) (rand : String) : String :=
  Nat.repr now ++ "-" ++ rand

/-- The title actually stored by `createNote`: the trimmed given title, with
the blank (and absent) case falling back to the default title. -/
def jsTitleDefault : Option String → String
  | none => "Untitled"
  | some t => if jsTrim t = "" then ("Untitled") else jsTrim t

/-- Embeds `createNote(data)`: builds the new note, prepends it, selects it
and returns it. -/
def createNote (now : Nat) (rand : String) (data : CreateData) (s : StoreState) :
    Note × StoreState :=
  let newNote : Note :=
    { id := genId now rand
      title := jsTitleDefault data.title
      content := data.content.getD ""
      tags := data.tags.getD []
      createdAt := now
      updatedAt := now
      archived := false }
  (newNote,
    { s with notes := newNote :: s.notes, selectedId := some newNote.id })

/-- The JS object spread of the patch over the note, with `updatedAt` then
overwritten by the current time (it is listed last in the source's spread). -/
def applyPatch (now : Nat) (p : NotePatch) (n : Note) : Note :=
  { id := p.id.getD n.id
    title := p.title.getD n.title
    content := p.content.getD n.content
    tags := p.tags.getD n.tags
    createdAt := p.createdAt.getD n.createdAt
    updatedAt := now
    archived := p.archived.getD n.archived }

/-- Embeds `updateNote(id, updates)`: map over the notes, patching the
matches. -/
def updateNote (now : Nat) (id : String) (p : NotePatch) (s : StoreState) :
    StoreState :=
  { s with notes := s.notes.map (fun n => if n.id = id then applyPatch now p n else n) }

/-- Embeds `toggleArchive(id)`: flip `archived` and bump `updatedAt` on the
matches. -/
def toggleArchive (now : Nat) (id : String) (s : StoreState) : StoreState :=
  { s with notes := s.notes.map (fun n =>
      if n.id = id then { n with archived := !n.archived, updatedAt := now } else n) }

/-- Embeds `deleteNote(id)`: filter the note out; clear `selectedId` when it
was the deleted id. -/
def deleteNote (id : String) (s : StoreState) : StoreState :=
  { s with
    notes := s.notes.filter (fun n => !(n.id = id : Bool))
    selectedId := if s.selectedId = some id then none else s.selectedId }

/-- Embeds `clearAll()`: gated on the confirmation dialog, whose outcome is
the explicit `confirmed` argument. -/
def clearAll (confirmed : Bool) (s : StoreState) : StoreState :=
  if confirmed then { s with notes := [], selectedId := none } else s

/-- The raw `useState` setter for the query. -/
def setQuery (v : String) (s : StoreState) : StoreState := { s with query := v }

/-- The raw `useState` setter for the sort key. -/
def setSortBy (v : String) (s : StoreState) : StoreState := { s with sortBy := v }

/-- The raw `useState` setter for the selection. -/
def setSelectedId (v : Option String) (s : StoreState) : StoreState :=
  { s with selectedId := v }

/-- The raw `useState` setter for the theme. -/
def setTheme (v : String) (s : StoreState) : StoreState := { s with theme := v }

/-- The filter predicate of `filteredSortedNotes`: case-folded title, content,
or some tag includes the (already trimmed and case-folded) query `q`. -/
def noteMatches (q : String) (n : Note) : Bool :=
  strIncludes (jsToLower n.title) q ||
  strIncludes (jsToLower n.content) q ||
  n.tags.any (fun t => strIncludes (jsToLower t) q)

/-- The filter step of `filteredSortedNotes`: trim and case-fold the query;
when the result is empty keep all notes, otherwise filter by `noteMatches`. -/
def filterStep (query : String) (notes : List Note) : List Note :=
  let q := jsToLower (jsTrim query)
  if q = "" then notes else notes.filter (noteMatches q)

/-- The comparator of `filteredSortedNotes` as a boolean `le`: `le a b` iff
the JS comparator is nonpositive on the pair — titles ascending for the
`title` key, timestamps descending for `createdAt` and for the default
(`updatedAt`) branch. -/
def noteLe (sortBy : String) (a b : Note) : Bool :=
  if sortBy = "title" then strLe a.title b.title
  else if sortBy = "createdAt" then decide (b.createdAt ≤ a.createdAt)
  else decide (b.updatedAt ≤ a.updatedAt)

/-- Embeds `filteredSortedNotes`: filter, then a stable sort of a copy of the
array (stable per the ECMAScript specification) by the comparator for
`sortBy`. -/
def filteredSortedNotes (s : StoreState) : List Note :=
  (filterStep s.query s.notes).mergeSort (noteLe s.sortBy)

/-- Embeds collecting a JS `Set` built from `acc` then the elements of the
list: keep the first occurrence of each element, in insertion order. -/
def setDedup (acc : List String) : List String → List String
  | [] => acc
  | t :: ts => if t ∈ acc then setDedup acc ts else setDedup (acc ++ [t]) ts

/-- Embeds the tag editor's `addTag`: trim the text; when blank do nothing,
otherwise commit the de-duplicated old tags followed by the new one. -/
def addTag (text : String) (value : List String) : List String :=
  let t := jsTrim text
  if t = "" then value else setDedup [] (value ++ [t])

/-- The provider's initial state with empty storage: no notes, light theme,
empty query, `updatedAt` sort, nothing selected. -/
def initialState : StoreState :=
  { notes := [], theme := "light", query := "", sortBy := "updatedAt",
    selectedId := none }

/-- Fixture: a simple note with id `"a"`. -/
def noteA : Note :=
  { id := "a", title := "Alpha", content := "first", tags := ["work"],
    createdAt := 5, updatedAt := 5, archived := false }

/-- Fixture: a simple note with id `"b"`. -/
def noteB : Note :=
  { id := "b", title := "Beta", content := "second", tags := [],
    createdAt := 6, updatedAt := 6, archived := false }

/-- Fixture: the empty patch (no keys present). -/
def emptyPatch : NotePatch := ⟨none, none, none, none, none, none, none⟩

/-- Fixture: two notes sharing `updatedAt` for the stability witness. -/
def noteC : Note :=
  { id := "c", title := "Gamma", content := "", tags := [], createdAt := 1,
    updatedAt := 7, archived := false }

/-- Fixture: second note sharing `updatedAt` with `noteC`. -/
def noteD : Note :=
  { id := "d", title := "Delta", content := "", tags := [], createdAt := 2,
    updatedAt := 7, archived := false }

/-- Specification-side reading of "contains as a substring": the character
data of `s` decomposes around the character data of `q`. -/
def ContainsSub (q s : String) : Prop :=
  ∃ l r, s.data = l ++ q.data ++ r

/-- Specification-side reading of the filter predicate: the case-folded
title, the case-folded content, or some case-folded tag contains `q`. -/
def MatchesSpec (q : String) (n : Note) : Prop :=
  ContainsSub q (jsToLower n.title) ∨ ContainsSub q (jsToLower n.content) ∨
    ∃ t, t ∈ n.tags ∧ ContainsSub q (jsToLower t)

/-- Specification-side sort order for each sort key: strictly
lexicographically smaller or equal title when sorting by title, later-or-equal
timestamp first (descending) otherwise. -/
def keyOrder (sb : String) (a b : Note) : Prop :=
  if sb = "title" then
    (List.Lex (fun c d : Char => c < d) a.title.data b.title.data ∨ a.title = b.title)
  else if sb = "createdAt" then b.createdAt ≤ a.createdAt
  else b.updatedAt ≤ a.updatedAt

/-- Equality of the active sort key of two notes. -/
def keyEq (sb : String) (a b : Note) : Prop :=
  if sb = "title" then a.title = b.title
  else if sb = "createdAt" then a.createdAt = b.createdAt
  else a.updatedAt = b.updatedAt

/-! ### Helper lemmas -/

theorem map_patch_of_not_mem {id : String} (f : Note → Note) {l : List Note}
    (h : id ∉ l.map Note.id) :
    l.map (fun n => if n.id = id then f n else n) = l := by
  induction l with
  | nil => rfl
  | cons m t ih =>
    simp only [List.map_cons, List.mem_cons, not_or] at h
    rw [List.map_cons, if_neg (fun e => h.1 e.symm), ih h.2]

theorem filter_keep_of_not_mem {id : String} {l : List Note}
    (h : id ∉ l.map Note.id) :
    l.filter (fun n => !(n.id = id : Bool)) = l := by
  induction l with
  | nil => rfl
  | cons m t ih =>
    simp only [List.map_cons, List.mem_cons, not_or] at h
    have hm : ¬ m.id = id := fun e => h.1 e.symm
    rw [List.filter_cons, if_pos (by simp [hm]), ih h.2]

theorem filter_erase_of_nodup {l : List Note} {n : Note}
    (hnd : (l.map Note.id).Nodup) (hn : n ∈ l) :
    l.filter (fun m => !(m.id = n.id : Bool)) = l.erase n := by
  induction l with
  | nil => cases hn
  | cons m t ih =>
    rw [List.map_cons, List.nodup_cons] at hnd
    rw [List.filter_cons, List.erase_cons]
    by_cases hmn : m = n
    · subst hmn
      rw [if_neg (by simp), if_pos (by simp)]
      exact filter_keep_of_not_mem hnd.1
    · have hn' : n ∈ t := by
        rcases List.mem_cons.1 hn with h | h
        · exact absurd h.symm hmn
        · exact h
      have hmid : ¬ m.id = n.id :=
        fun e => hnd.1 (e ▸ List.mem_map_of_mem Note.id hn')
      rw [if_pos (by simp [hmid]), if_neg (by simp [hmn]), ih hnd.2 hn']

theorem map_patch_eq_single {l : List Note} {n : Note} (f : Note → Note)
    (hnd : (l.map Note.id).Nodup) (hn : n ∈ l) :
    l.map (fun m => if m.id = n.id then f m else m) =
      l.map (fun m => if m = n then f m else m) := by
  apply List.map_congr_left
  intro m hm
  by_cases hcase : m = n
  · subst hcase; simp
  · have hid : ¬ m.id = n.id :=
      fun e => hcase (List.inj_on_of_nodup_map hnd hm hn e)
    rw [if_neg hid, if_neg hcase]

theorem setDedup_nodup (l : List String) (acc : List String) (h : acc.Nodup) :
    (setDedup acc l).Nodup := by
  induction l generalizing acc with
  | nil => exact h
  | cons t ts ih =>
    rw [setDedup]
    by_cases ht : t ∈ acc
    · rw [if_pos ht]; exact ih _ h
    · rw [if_neg ht]
      exact ih _ (by simpa [List.concat_eq_append] using h.concat ht)

theorem mem_setDedup (l : List String) (acc : List String) (x : String) :
    x ∈ setDedup acc l ↔ x ∈ acc ∨ x ∈ l := by
  induction l generalizing acc with
  | nil => simp [setDedup]
  | cons t ts ih =>
    rw [setDedup]
    by_cases ht : t ∈ acc
    · rw [if_pos ht, ih]
      constructor
      · rintro (h | h)
        · exact Or.inl h
        · exact Or.inr (List.mem_cons_of_mem _ h)
      · rintro (h | h)
        · exact Or.inl h
        · rcases List.mem_cons.1 h with rfl | h
          · exact Or.inl ht
          · exact Or.inr h
    · rw [if_neg ht, ih]
      simp only [List.mem_append, List.mem_cons, List.mem_singleton]
      tauto

theorem startsWithL_iff (p s : List Char) :
    startsWithL s p = true ↔ ∃ r, s = p ++ r := by
  induction p generalizing s with
  | nil =>
    cases s <;> simp [startsWithL]
  | cons d ds ih =>
    cases s with
    | nil => simp [startsWithL]
    | cons c cs =>
      simp only [startsWithL, Bool.and_eq_true, decide_eq_true_eq, ih,
        List.cons_append, List.cons.injEq]
      constructor
      · rintro ⟨rfl, r, rfl⟩
        exact ⟨r, rfl, rfl⟩
      · rintro ⟨r, rfl, rfl⟩
        exact ⟨rfl, r, rfl⟩

theorem containsL_iff (p s : List Char) :
    containsL s p = true ↔ ∃ l r, s = l ++ p ++ r := by
  induction s with
  | nil =>
    rw [containsL, startsWithL_iff]
    constructor
    · rintro ⟨r, hr⟩
      exact ⟨[], r, by simpa using hr⟩
    · rintro ⟨l, r, hlr⟩
      rcases List.append_eq_nil.1 (List.append_eq_nil.1 hlr.symm).1 with ⟨rfl, rfl⟩
      exact ⟨r, by simpa using hlr⟩
  | cons c cs ih =>
    rw [containsL, Bool.or_eq_true, startsWithL_iff, ih]
    constructor
    · rintro (⟨r, hr⟩ | ⟨l, r, hlr⟩)
      · exact ⟨[], r, by simpa using hr⟩
      · exact ⟨c :: l, r, by simp [hlr]⟩
    · rintro ⟨l, r, hlr⟩
      cases l with
      | nil => exact Or.inl ⟨r, by simpa using hlr⟩
      | cons x xs =>
        rcases List.cons.injEq .. ▸ hlr with ⟨rfl, htl⟩
        exact Or.inr ⟨xs, r, by simpa using htl⟩

theorem strIncludes_iff (s q : String) :
    strIncludes s q = true ↔ ContainsSub q s :=
  containsL_iff q.data s.data

theorem noteMatches_iff (q : String) (n : Note) :
    noteMatches q n = true ↔ MatchesSpec q n := by
  rw [noteMatches, MatchesSpec]
  simp only [Bool.or_eq_true, List.any_eq_true, strIncludes_iff, or_assoc]

theorem charListLe_refl (l : List Char) : charListLe l l = true := by
  induction l with
  | nil => rfl
  | cons c cs ih => rw [charListLe, if_pos rfl]; exact ih

theorem charListLe_trans : ∀ (a b c : List Char),
    charListLe a b = true → charListLe b c = true → charListLe a c = true
  | [], _, _, _, _ => rfl
  | x :: xs, [], _, h1, _ => by simp [charListLe] at h1
  | x :: xs, y :: ys, [], _, h2 => by simp [charListLe] at h2
  | x :: xs, y :: ys, z :: zs, h1, h2 => by
    rw [charListLe] at h1 h2 ⊢
    by_cases hxy : x = y
    · subst hxy
      rw [if_pos rfl] at h1
      by_cases hyz : x = z
      · subst hyz
        rw [if_pos rfl] at h2 ⊢
        exact charListLe_trans _ _ _ h1 h2
      · rw [if_neg hyz] at h2 ⊢
        exact h2
    · rw [if_neg hxy] at h1
      simp only [decide_eq_true_eq] at h1
      by_cases hyz : y = z
      · subst hyz
        rw [if_neg hxy]
        simpa using h1
      · rw [if_neg hyz] at h2
        simp only [decide_eq_true_eq] at h2
        have hxz : x < z := lt_trans h1 h2
        rw [if_neg (ne_of_lt hxz)]
        simpa using hxz

theorem charListLe_total : ∀ (a b : List Char),
    (charListLe a b || charListLe b a) = true
  | [], _ => by simp [charListLe]
  | x :: xs, [] => by simp [charListLe]
  | x :: xs, y :: ys => by
    rw [charListLe, charListLe]
    by_cases hxy : x = y
    · subst hxy
      rw [if_pos rfl, if_pos rfl]
      exact charListLe_total xs ys
    · rw [if_neg hxy, if_neg (fun e => hxy e.symm)]
      rcases lt_or_gt_of_ne hxy with h | h
      · simp [h]
      · simp [le_of_lt h, h]

theorem charListLe_iff_lex (a b : List Char) :
    charListLe a b = true ↔
      (List.Lex (fun c d : Char => c < d) a b ∨ a = b) := by
  induction a generalizing b with
  | nil =>
    cases b with
    | nil => simp [charListLe]
    | cons d ds => simp [charListLe, List.Lex.nil]
  | cons c cs ih =>
    cases b with
    | nil => simp [charListLe]
    | cons d ds =>
      rw [charListLe]
      by_cases hcd : c = d
      · subst hcd
        rw [if_pos rfl, ih]
        constructor
        · rintro (h | rfl)
          · exact Or.inl (List.Lex.cons h)
          · exact Or.inr rfl
        · rintro (h | heq)
          · exact Or.inl (List.Lex.cons_iff.1 h)
          · cases heq
            exact Or.inr rfl
      · rw [if_neg hcd]
        simp only [decide_eq_true_eq]
        constructor
        · intro h
          exact Or.inl (List.Lex.rel h)
        · rintro (h | heq)
          · cases h with
            | cons h => exact absurd rfl hcd
            | rel h => exact h
          · cases heq
            exact absurd rfl hcd

theorem noteLe_trans (sb : String) : ∀ (a b c : Note),
    noteLe sb a b → noteLe sb b c → noteLe sb a c := by
  intro a b c h1 h2
  unfold noteLe at h1 h2 ⊢
  split_ifs at h1 h2 ⊢ with ht hc
  · exact charListLe_trans _ _ _ h1 h2
  · simp only [decide_eq_true_eq] at h1 h2 ⊢
    omega
  · simp only [decide_eq_true_eq] at h1 h2 ⊢
    omega

theorem noteLe_total (sb : String) : ∀ (a b : Note),
    noteLe sb a b || noteLe sb b a := by
  intro a b
  unfold noteLe
  split_ifs with ht hc
  · exact charListLe_total _ _
  · simp only [Bool.or_eq_true, decide_eq_true_eq]
    omega
  · simp only [Bool.or_eq_true, decide_eq_true_eq]
    omega

theorem noteLe_iff_keyOrder (sb : String) (a b : Note) :
    noteLe sb a b = true ↔ keyOrder sb a b := by
  unfold noteLe keyOrder
  split_ifs with ht hc
  · exact (charListLe_iff_lex _ _).trans
      (or_congr Iff.rfl ⟨fun h => String.ext h, fun h => congrArg String.data h⟩)
  · simp
  · simp

theorem noteLe_of_keyEq {sb : String} {a b : Note} (h : keyEq sb a b) :
    noteLe sb a b = true := by
  unfold keyEq at h
  unfold noteLe
  split_ifs at h ⊢ with ht hc
  · rw [h]
    exact charListLe_refl _
  · simp [h]
  · simp [h]

/-! ### The claims -/

/-- C1 counterexample: `genId` is built from the clock and a random suffix and
is never checked against existing ids, so on a store already holding a note
with id `"5-x"` the freshly generated id collides with an existing one. -/
theorem createNote_counterexample_C1 :
    (createNote 5 "x" ⟨none, none, none⟩
        { initialState with notes := [{ noteA with id := "5-x" }] }).1.id ∈
      ({ initialState with notes := [{ noteA with id := "5-x" }] } : StoreState).notes.map
        Note.id := by
  decide

/-- C1 (amended): whenever the generated id (clock value, dash, random
suffix — the code never checks it) differs from every existing id, the note
created by `createNote` has an id distinct from all existing ids; in all
cases the stored title is the trimmed given title, or the default when blank
after trimming, content defaults to the empty string, tags to the empty list,
archived to false, createdAt and updatedAt are the current time, the note is
prepended to the collection and becomes selected, and the query, sort and
theme are untouched; `createNote` never fails (it is a total function). -/
theorem createNote_spec_C1 (now : Nat) (rand : String) (data : CreateData)
    (s : StoreState) (h : ¬ genId now rand ∈ s.notes.map Note.id) :
    ¬ (createNote now rand data s).1.id ∈ s.notes.map Note.id ∧
    (createNote now rand data s).2.notes =
      (createNote now rand data s).1 :: s.notes ∧
    (createNote now rand data s).2.selectedId =
      some (createNote now rand data s).1.id ∧
    (createNote now rand data s).1.title =
      (if jsTrim (data.title.getD "") = "" then ("Untitled")
        else jsTrim (data.title.getD "")) ∧
    (createNote now rand data s).1.content = data.content.getD "" ∧
    (createNote now rand data s).1.tags = data.tags.getD [] ∧
    (createNote now rand data s).1.archived = false ∧
    (createNote now rand data s).1.createdAt = now ∧
    (createNote now rand data s).1.updatedAt = now ∧
    (createNote now rand data s).2.query = s.query ∧
    (createNote now rand data s).2.sortBy = s.sortBy ∧
    (createNote now rand data s).2.theme = s.theme := by
  refine ⟨h, rfl, rfl, ?_, rfl, rfl, rfl, rfl, rfl, rfl, rfl, rfl⟩
  rcases data with ⟨tO, cO, gO⟩
  cases tO with
  | none => rfl
  | some t => rfl

/-- Witness for C1: creating a note with a blank title on a one-note store. -/
theorem createNote_spec_C1_witness :
    ¬ (createNote 5 "x" ⟨some ("   "), none, none⟩
        { initialState with notes := [noteA] }).1.id ∈
      ({ initialState with notes := [noteA] } : StoreState).notes.map Note.id ∧
    (createNote 5 "x" ⟨some ("   "), none, none⟩
        { initialState with notes := [noteA] }).1.title =
      (if jsTrim ((some ("   ") : Option String).getD "") = "" then ("Untitled")
        else jsTrim ((some ("   ") : Option String).getD "")) :=
  ⟨(createNote_spec_C1 5 "x" ⟨some ("   "), none, none⟩ _ (by decide)).1,
    (createNote_spec_C1 5 "x" ⟨some ("   "), none, none⟩ _ (by decide)).2.2.2.1⟩

/-- C2 counterexample: a patch carrying a `createdAt` key is spread over the
note, so `updateNote` changes `createdAt` (and could likewise change `id`). -/
theorem updateNote_counterexample_C2 :
    noteA ∈ ({ initialState with notes := [noteA] } : StoreState).notes ∧
    noteA.createdAt = 5 ∧
    (updateNote 7 "a" ⟨none, none, none, none, some 99, none, none⟩
        { initialState with notes := [noteA] }).notes.map Note.createdAt = [99] := by
  decide

/-- C2 (amended): for every note in the collection and every patch that does
not carry the `id` or `createdAt` keys, the patched note kept by `updateNote`
has the same id and createdAt, its `updatedAt` is the current time, and every
other field is the patch field when present, the old field otherwise. -/
theorem updateNote_merge_C2 (now : Nat) (id : String) (p : NotePatch)
    (s : StoreState) (n : Note) (hn : n ∈ s.notes) (hid : n.id = id)
    (hpid : p.id = none) (hpcr : p.createdAt = none) :
    applyPatch now p n ∈ (updateNote now id p s).notes ∧
    (applyPatch now p n).id = n.id ∧
    (applyPatch now p n).createdAt = n.createdAt ∧
    (applyPatch now p n).updatedAt = now ∧
    (applyPatch now p n).title = p.title.getD n.title ∧
    (applyPatch now p n).content = p.content.getD n.content ∧
    (applyPatch now p n).tags = p.tags.getD n.tags ∧
    (applyPatch now p n).archived = p.archived.getD n.archived := by
  refine ⟨?_, ?_, ?_, rfl, rfl, rfl, rfl, rfl⟩
  · unfold updateNote
    have : applyPatch now p n = (fun m => if m.id = id then applyPatch now p m else m) n := by
      simp [hid]
    rw [this]
    exact List.mem_map_of_mem _ hn
  · simp [applyPatch, hpid]
  · simp [applyPatch, hpcr]

/-- Witness for C2 at a concrete note, patch and time. -/
theorem updateNote_merge_C2_witness :
    applyPatch 9 ⟨none, some ("New"), none, none, none, none, none⟩ noteA ∈
      (updateNote 9 "a" ⟨none, some ("New"), none, none, none, none, none⟩
        { initialState with notes := [noteA] }).notes ∧
    (applyPatch 9 ⟨none, some ("New"), none, none, none, none, none⟩ noteA).createdAt =
      noteA.createdAt :=
  ⟨(updateNote_merge_C2 9 "a" _ { initialState with notes := [noteA] } noteA
      (by decide) (by decide) rfl rfl).1,
    (updateNote_merge_C2 9 "a" _ { initialState with notes := [noteA] } noteA
      (by decide) (by decide) rfl rfl).2.2.1⟩

/-- C3 counterexample: with no note matching id `"x"` but the selection on
`"x"`, `deleteNote` clears the selection, so the state is not left entirely
unchanged by every operation on an unknown id. -/
theorem unknown_id_counterexample_C3 :
    ¬ ("x" : String) ∈
        ({ initialState with selectedId := some ("x") } : StoreState).notes.map Note.id ∧
    ¬ deleteNote ("x") { initialState with selectedId := some ("x") } =
        { initialState with selectedId := some ("x") } := by
  decide

/-- C3 (amended): on an id matching no note, `updateNote` and `toggleArchive`
leave the whole state unchanged; `deleteNote` leaves the collection, query,
sort and theme unchanged and leaves the selection unchanged unless it equals
the given id, in which case it is cleared; none of the three can fail (they
are total functions). -/
theorem unknown_id_noop_C3 (now : Nat) (id : String) (p : NotePatch)
    (s : StoreState) (h : ¬ id ∈ s.notes.map Note.id) :
    updateNote now id p s = s ∧ toggleArchive now id s = s ∧
    (deleteNote id s).notes = s.notes ∧
    (deleteNote id s).selectedId =
      (if s.selectedId = some id then none else s.selectedId) ∧
    (deleteNote id s).query = s.query ∧ (deleteNote id s).sortBy = s.sortBy ∧
    (deleteNote id s).theme = s.theme := by
  refine ⟨?_, ?_, ?_, rfl, rfl, rfl, rfl⟩
  · unfold updateNote
    rw [map_patch_of_not_mem _ h]
  · unfold toggleArchive
    rw [map_patch_of_not_mem _ h]
  · unfold deleteNote
    exact filter_keep_of_not_mem h

/-- Witness for C3 at a concrete state. -/
theorem unknown_id_noop_C3_witness :
    updateNote 3 "x" emptyPatch { initialState with notes := [noteA] } =
      { initialState with notes := [noteA] } ∧
    (deleteNote ("x") { initialState with notes := [noteA] }).notes =
      ({ initialState with notes := [noteA] } : StoreState).notes :=
  ⟨(unknown_id_noop_C3 3 "x" emptyPatch _ (by decide)).1,
    (unknown_id_noop_C3 3 "x" emptyPatch _ (by decide)).2.2.1⟩

/-- C4: when the ids are distinct and a note matches the id, `deleteNote`
removes exactly that note (the collection becomes the old one with that
single note erased, order preserved); the selection is cleared when it equals
the id and kept as is otherwise; query, sort and theme are untouched. -/
theorem deleteNote_removes_exactly_C4 (id : String) (s : StoreState) (n : Note)
    (hnd : (s.notes.map Note.id).Nodup) (hn : n ∈ s.notes) (hid : n.id = id) :
    (deleteNote id s).notes = s.notes.erase n ∧
    (deleteNote id s).selectedId =
      (if s.selectedId = some id then none else s.selectedId) ∧
    (deleteNote id s).query = s.query ∧ (deleteNote id s).sortBy = s.sortBy ∧
    (deleteNote id s).theme = s.theme := by
  subst hid
  exact ⟨filter_erase_of_nodup hnd hn, rfl, rfl, rfl, rfl⟩

/-- Witness for C4: deleting the selected note of a two-note store. -/
theorem deleteNote_removes_exactly_C4_witness :
    (deleteNote ("a")
        { initialState with notes := [noteB, noteA], selectedId := some ("a") }).notes =
      ({ initialState with notes := [noteB, noteA], selectedId := some ("a") } :
        StoreState).notes.erase noteA ∧
    (deleteNote ("a")
        { initialState with notes := [noteB, noteA], selectedId := some ("a") }).selectedId =
      (if ({ initialState with notes := [noteB, noteA], selectedId := some ("a") } :
            StoreState).selectedId = some ("a")
        then none
        else ({ initialState with notes := [noteB, noteA], selectedId := some ("a") } :
          StoreState).selectedId) :=
  ⟨(deleteNote_removes_exactly_C4 ("a") _ noteA (by decide) (by decide) (by decide)).1,
    (deleteNote_removes_exactly_C4 ("a") _ noteA (by decide) (by decide) (by decide)).2.1⟩

/-- C5: clearAll is gated on the confirmation: on rejection the whole state is
unchanged; on acceptance the collection becomes empty and the selection is
cleared. -/
theorem clearAll_gate_C5 (s : StoreState) :
    clearAll false s = s ∧ (clearAll true s).notes = [] ∧
    (clearAll true s).selectedId = none :=
  ⟨rfl, rfl, rfl⟩

/-- C6: the filter step of the derived view keeps exactly the notes whose
case-folded title, case-folded content or some case-folded tag contains the
trimmed case-folded query as a substring, and keeps every note when the query
is blank after trimming. -/
theorem filter_characterization_C6 (query : String) (notes : List Note) (n : Note) :
    n ∈ filterStep query notes ↔
      n ∈ notes ∧
        (jsToLower (jsTrim query) = "" ∨ MatchesSpec (jsToLower (jsTrim query)) n) := by
  rw [filterStep]
  by_cases hq : jsToLower (jsTrim query) = ""
  · simp [hq]
  · rw [if_neg hq]
    rw [List.mem_filter, noteMatches_iff]
    constructor
    · rintro ⟨hmem, hmatch⟩
      exact ⟨hmem, Or.inr hmatch⟩
    · rintro ⟨hmem, hq' | hmatch⟩
      · exact absurd hq' hq
      · exact ⟨hmem, hmatch⟩

/-- C7: the derived view is a permutation of the filtered notes (a fresh
sequence rearranging them, the underlying collection itself being untouched
by this read-only function), it is sorted by the active key — ascending
lexicographic titles for the title key, descending timestamps for
`createdAt` and for every other value of `sortBy` (the `updatedAt` default) —
and it is stable: two filtered notes with equal active keys keep their
relative order. -/
theorem visible_sort_C7 (s : StoreState) (a b : Note)
    (hab : List.Sublist [a, b] (filterStep s.query s.notes))
    (hk : keyEq s.sortBy a b) :
    List.Perm (filteredSortedNotes s) (filterStep s.query s.notes) ∧
    List.Pairwise (keyOrder s.sortBy) (filteredSortedNotes s) ∧
    List.Sublist [a, b] (filteredSortedNotes s) := by
  refine ⟨List.mergeSort_perm _ _, ?_, ?_⟩
  · exact (List.sorted_mergeSort (noteLe_trans s.sortBy) (noteLe_total s.sortBy)
      (filterStep s.query s.notes)).imp
        (fun h => (noteLe_iff_keyOrder s.sortBy _ _).1 h)
  · exact List.pair_sublist_mergeSort (noteLe_trans s.sortBy)
      (noteLe_total s.sortBy) (noteLe_of_keyEq hk) hab

/-- Witness for C7 on a two-note store whose notes have equal sort keys. -/
theorem visible_sort_C7_witness :
    List.Perm (filteredSortedNotes { initialState with notes := [noteC, noteD] })
      (filterStep "" [noteC, noteD]) ∧
    List.Sublist [noteC, noteD]
      (filteredSortedNotes { initialState with notes := [noteC, noteD] }) :=
  ⟨(visible_sort_C7 { initialState with notes := [noteC, noteD] } noteC noteD
      (List.Sublist.refl _)
      (by show keyEq ("updatedAt") noteC noteD; simp [keyEq, noteC, noteD])).1,
    (visible_sort_C7 { initialState with notes := [noteC, noteD] } noteC noteD
      (List.Sublist.refl _)
      (by show keyEq ("updatedAt") noteC noteD; simp [keyEq, noteC, noteD])).2.2⟩

/-- C8 counterexample: `createNote` stores the caller's tags array verbatim,
so a duplicated tags argument yields a note, present in the new state, whose
tags list is not duplicate-free. -/
theorem tags_counterexample_C8 :
    (createNote 0 "r" ⟨none, none, some ["a", "a"]⟩ initialState).1 ∈
      (createNote 0 "r" ⟨none, none, some ["a", "a"]⟩ initialState).2.notes ∧
    ¬ (createNote 0 "r" ⟨none, none, some ["a", "a"]⟩ initialState).1.tags.Nodup := by
  decide

/-- C8 (amended): de-duplication of tags happens only on the tag editor's add
path: when the typed text is not blank after trimming, `addTag` commits a
duplicate-free list whose members are exactly the old tags plus the trimmed
text (first occurrences kept, insertion order); `createNote` itself stores
the caller's tags array as given, without de-duplication. -/
theorem tags_dedup_C8 (text : String) (value : List String) (ts : List String)
    (now : Nat) (rand : String) (s : StoreState) (h : ¬ jsTrim text = "") :
    (addTag text value).Nodup ∧
    addTag text value ⊆ value ++ [jsTrim text] ∧
    value ++ [jsTrim text] ⊆ addTag text value ∧
    (createNote now rand ⟨none, none, some ts⟩ s).1.tags = ts := by
  unfold addTag
  rw [if_neg h]
  refine ⟨setDedup_nodup _ _ List.nodup_nil, ?_, ?_, rfl⟩
  · intro x hx
    rcases (mem_setDedup _ _ _).1 hx with hx | hx
    · cases hx
    · exact hx
  · intro x hx
    exact (mem_setDedup _ _ _).2 (Or.inr hx)

/-- Witness for C8: adding the already-present tag to a two-tag list. -/
theorem tags_dedup_C8_witness :
    (addTag (" a ") ["a", "b"]).Nodup ∧
    addTag (" a ") ["a", "b"] ⊆ ["a", "b"] ++ [jsTrim (" a ")] :=
  ⟨(tags_dedup_C8 (" a ") ["a", "b"] [] 0 "r" initialState (by decide)).1,
    (tags_dedup_C8 (" a ") ["a", "b"] [] 0 "r" initialState (by decide)).2.1⟩

/-- C9 counterexample: `setSortBy` accepts a value outside the three-member
sort enum and changes `sortBy` to it, and `setTheme` likewise accepts a value
outside the theme enum: the setters do not validate enum membership. -/
theorem setters_counterexample_C9 :
    (¬ ("bogus" : String) = "updatedAt" ∧ ¬ ("bogus" : String) = "createdAt" ∧
      ¬ ("bogus" : String) = "title") ∧
    ¬ (setSortBy ("bogus") initialState).sortBy = initialState.sortBy ∧
    ¬ ("neon" : String) = "light" ∧ ¬ ("neon" : String) = "dark" ∧
    ¬ (setTheme ("neon") initialState).theme = initialState.theme := by
  decide

/-- C9 (amended): all four setters are direct and unvalidated: each stores
its argument verbatim (whatever it is) in its field and leaves every other
field of the state unchanged. -/
theorem setters_direct_C9 (s : StoreState) (v : String) (oid : Option String) :
    ((setSortBy v s).sortBy = v ∧ (setSortBy v s).notes = s.notes ∧
      (setSortBy v s).query = s.query ∧ (setSortBy v s).selectedId = s.selectedId ∧
      (setSortBy v s).theme = s.theme) ∧
    ((setTheme v s).theme = v ∧ (setTheme v s).notes = s.notes ∧
      (setTheme v s).query = s.query ∧ (setTheme v s).selectedId = s.selectedId ∧
      (setTheme v s).sortBy = s.sortBy) ∧
    ((setQuery v s).query = v ∧ (setQuery v s).notes = s.notes ∧
      (setQuery v s).sortBy = s.sortBy ∧ (setQuery v s).selectedId = s.selectedId ∧
      (setQuery v s).theme = s.theme) ∧
    ((setSelectedId oid s).selectedId = oid ∧ (setSelectedId oid s).notes = s.notes ∧
      (setSelectedId oid s).query = s.query ∧ (setSelectedId oid s).sortBy = s.sortBy ∧
      (setSelectedId oid s).theme = s.theme) :=
  ⟨⟨rfl, rfl, rfl, rfl, rfl⟩, ⟨rfl, rfl, rfl, rfl, rfl⟩,
    ⟨rfl, rfl, rfl, rfl, rfl⟩, ⟨rfl, rfl, rfl, rfl, rfl⟩⟩

/-- C10: on a matching id (ids distinct), `updateNote` and `toggleArchive`
rewrite exactly the matching note in place — the collection equals a
pointwise map that touches only that note — so order and count are preserved
and every other note is exactly unchanged; the query, sort, selection and
theme are untouched. -/
theorem update_toggle_frame_C10 (now : Nat) (id : String) (p : NotePatch)
    (s : StoreState) (n : Note)
    (hnd : (s.notes.map Note.id).Nodup) (hn : n ∈ s.notes) (hid : n.id = id) :
    (updateNote now id p s).notes =
      s.notes.map (fun m => if m = n then applyPatch now p m else m) ∧
    (toggleArchive now id s).notes =
      s.notes.map (fun m =>
        if m = n then { m with archived := !m.archived, updatedAt := now } else m) ∧
    (updateNote now id p s).notes.length = s.notes.length ∧
    (toggleArchive now id s).notes.length = s.notes.length ∧
    (updateNote now id p s).query = s.query ∧
    (updateNote now id p s).sortBy = s.sortBy ∧
    (updateNote now id p s).selectedId = s.selectedId ∧
    (updateNote now id p s).theme = s.theme ∧
    (toggleArchive now id s).query = s.query ∧
    (toggleArchive now id s).sortBy = s.sortBy ∧
    (toggleArchive now id s).selectedId = s.selectedId ∧
    (toggleArchive now id s).theme = s.theme := by
  subst hid
  refine ⟨map_patch_eq_single _ hnd hn, map_patch_eq_single _ hnd hn,
    ?_, ?_, rfl, rfl, rfl, rfl, rfl, rfl, rfl, rfl⟩
  · unfold updateNote
    exact List.length_map _ _
  · unfold toggleArchive
    exact List.length_map _ _

/-- Witness for C10 at a concrete two-note store. -/
theorem update_toggle_frame_C10_witness :
    (updateNote 9 "a" emptyPatch { initialState with notes := [noteB, noteA] }).notes =
      ({ initialState with notes := [noteB, noteA] } : StoreState).notes.map
        (fun m => if m = noteA then applyPatch 9 emptyPatch m else m) ∧
    (toggleArchive 9 "a" { initialState with notes := [noteB, noteA] }).notes.length =
      ({ initialState with notes := [noteB, noteA] } : StoreState).notes.length :=
  ⟨(update_toggle_frame_C10 9 "a" emptyPatch _ noteA (by decide) (by decide) (by decide)).1,
    (update_toggle_frame_C10 9 "a" emptyPatch _ noteA (by decide) (by decide) (by decide)).2.2.2.1⟩
